import Mathlib

/-!
Shallow embedding of the Skull rules engine (crate `game`: `game.rs`, `hand.rs`).

The engine is a pure state machine over a `Game` aggregate: per-player scores,
hands (a two-kind multiset of cards), ordered played piles, a three-variant
phase state and an optional buffered event.  Randomness (used only when
discarding after a lost challenge) is modelled by passing the drawn value of
`rng.gen_range(0..=count)` explicitly as a `Nat` parameter named `choice`.
Rust panics (failed `assert!`/`unwrap`/array index, or the infinite
player-increment loop) are modelled as a `fatal`/`none` outcome.
-/

/-- `Card` from `lib.rs`: `Flower` (safe) or `Skull` (penalty). -/
inductive Card
  | flower
  | skull
deriving DecidableEq, Repr

/-- `Hand` from `hand.rs`: at most one skull and up to three flowers
(the bound is maintained by the operations, not the type). -/
structure Hand where
  skull : Bool
  flowers : Nat
deriving DecidableEq, Repr

/-- `Hand::new`: the full starting hand (1 skull, 3 flowers). -/
def Hand.new : Hand := { skull := true, flowers := 3 }

/-- `Hand::default`: the empty hand (no skull, no flowers). -/
def Hand.default : Hand := { skull := false, flowers := 0 }

/-- `Hand::has_skull`. -/
def Hand.has_skull (h : Hand) : Bool := h.skull

/-- `Hand::has`: membership test for one card kind. -/
def Hand.has (h : Hand) (c : Card) : Bool :=
  match c with
  | Card.skull => h.has_skull
  | Card.flower => decide (0 < h.flowers)

/-- `Hand::count`: number of cards in the hand. -/
def Hand.count (h : Hand) : Nat :=
  h.flowers + (if h.skull then 1 else 0)

/-- `Hand::empty`. -/
def Hand.empty (h : Hand) : Bool := h.count == 0

/-- `Hand::is_superset_of`: `other` is a subset of `self`. -/
def Hand.is_superset_of (h other : Hand) : Bool :=
  ((h.skull == other.skull) || (h.skull && !other.skull)) && (other.flowers ≤ h.flowers)

/-- `Hand::discard_one` from `hand.rs`, with the value drawn from
`rng.gen_range(0..=self.count())` passed in as `choice`.  When both kinds are
present, `choice == 0` removes the skull and any other value removes a flower;
with only one kind present no random draw is consumed. -/
def Hand.discardOne (h : Hand) (choice : Nat) : Hand :=
  if h.skull && decide (0 < h.flowers) then
    if choice = 0 then { h with skull := false } else { h with flowers := h.flowers - 1 }
  else if h.skull then
    { h with skull := false }
  else
    { h with flowers := h.flowers - 1 }

/-- `Hand::assert_valid`: no more than three flowers. -/
def Hand.valid (h : Hand) : Bool := decide (h.flowers < 4)

/-- Accumulator loop of `TryFrom<&[Card]> for Hand`:
a second skull or a fourth flower is an error (`none`). -/
def handTryFromAux (skull : Bool) (flowers : Nat) : List Card → Option Hand
  | [] => some { skull := skull, flowers := flowers }
  | Card.skull :: rest =>
      if skull then none else handTryFromAux true flowers rest
  | Card.flower :: rest =>
      if flowers < 3 then handTryFromAux skull (flowers + 1) rest else none

/-- `Hand::try_from(&[Card])`: build a hand from a sequence of cards. -/
def handTryFrom (l : List Card) : Option Hand := handTryFromAux false 0 l

/-- `Sub<Hand> for Hand`: set difference, requiring the RHS to be a subset. -/
def handSub (a b : Hand) : Option Hand :=
  if a.is_superset_of b then
    some { skull := xor a.skull b.skull, flowers := a.flowers - b.flowers }
  else
    none

/-- `Sub<&[Card]> for Hand`: convert the slice to a hand, then subtract. -/
def handSubList (a : Hand) (l : List Card) : Option Hand :=
  (handTryFrom l).bind (handSub a)

/-- `InputType` from `lib.rs`. -/
inductive InputType
  | playCard
  | playCardOrStartBid
  | startBid
  | bidOrPass
  | flipCard
deriving DecidableEq, Repr

/-- `Event` from `lib.rs`. -/
inductive Event
  | input (player : Nat) (inputKind : InputType)
  | bidStarted
  | challengeStarted
  | challengerChoseSkull (challenger : Nat) (skullPlayer : Nat)
  | playerOut (player : Nat)
  | challengeWon (player : Nat)
  | challengeWonGameWon (player : Nat)
deriving DecidableEq, Repr

/-- `Response` from `lib.rs`. -/
inductive Response
  | playCard (c : Card)
  | bid (n : Nat)
  | pass
  | flip (playerIndex : Nat) (cardIndex : Nat)
deriving DecidableEq, Repr

/-- `ResponseError`: the declaration is not under `src/`, but every variant and
its payload is fixed by the uses in `Game::respond` (`game.rs`) and by the
crate's `tests/errors.rs`. -/
inductive ResponseError
  | pendingEvent
  | incorrectInputType (expected : InputType)
  | cardNotInHand
  | bidTooHigh (maxAllowed : Nat)
  | bidTooLow (minAllowed : Nat)
  | invalidIndex
  | cardAlreadyFlipped
  | manuallyFlippingOwnCards
deriving DecidableEq, Repr

/-- `State<N>` from `lib.rs` (named `GState` to avoid clashing with Mathlib).
Player indices are `Nat`; the `passed` and `flipped` arrays of length `N`
become lists. -/
inductive GState
  | playing (currentPlayer : Nat)
  | bidding (currentBidder : Nat) (highestBid : Nat) (highestBidder : Nat)
      (maxBid : Nat) (passed : List Bool)
  | challenging (challenger : Nat) (target : Nat) (flipped : List (List Nat))
deriving DecidableEq, Repr

/-- `Game<N>` from `game.rs`, minus the owned `ThreadRng` (random draws are
passed to the operations explicitly). -/
structure Game where
  scores : List Nat
  hands : List Hand
  piles : List (List Card)
  state : GState
  pending : Option Event
deriving DecidableEq, Repr

/-- `Game::player_count` (the const generic `N`; all per-player arrays have
this length). -/
def Game.playerCount (g : Game) : Nat := g.hands.length

/-- `Game::remaining_player_count`: players whose hand is non-empty. -/
def Game.remainingPlayerCount (g : Game) : Nat :=
  (g.hands.filter (fun h => !h.empty)).length

/-- `Game::cards_played_count`: total cards committed across all piles. -/
def Game.cardsPlayedCount (g : Game) : Nat :=
  (g.piles.map List.length).sum

/-- `len_2d` from `game.rs`. -/
def len2d (l : List (List Nat)) : Nat := (l.map List.length).sum

/-- `Game::player`: the actor recorded in the current phase state. -/
def Game.player (g : Game) : Nat :=
  match g.state with
  | GState.playing cp => cp
  | GState.bidding cb _ _ _ _ => cb
  | GState.challenging ch _ _ => ch

/-- `Game::set_player`. -/
def Game.setPlayer (g : Game) (i : Nat) : Game :=
  { g with
    state :=
      match g.state with
      | GState.playing _ => GState.playing i
      | GState.bidding _ hb hbr mb p => GState.bidding i hb hbr mb p
      | GState.challenging _ t f => GState.challenging i t f }

/-- `Game::has_passed`: false unless bidding and the flag is set. -/
def Game.hasPassed (g : Game) (i : Nat) : Bool :=
  match g.state with
  | GState.bidding _ _ _ _ passed => passed.getD i false
  | _ => false

/-- `Game::is_player_out`: the player's hand is empty. -/
def Game.isPlayerOut (g : Game) (i : Nat) : Bool :=
  (g.hands.getD i Hand.default).empty

/-- The scanning loop of `Game::increment_player`: starting from `idx`, find
the first player that is neither out nor (while bidding) passed.  The Rust
loop cycles modulo `N` forever; `fuel = N` visits every residue, so running
out of fuel corresponds exactly to the Rust infinite loop. -/
def findEligible (g : Game) : Nat → Nat → Option Nat
  | 0, _ => none
  | fuel + 1, idx =>
      if g.isPlayerOut idx || g.hasPassed idx then
        findEligible g fuel ((idx + 1) % g.playerCount)
      else
        some idx

/-- `Game::increment_player`: advance to the next eligible player.  `none`
models the fatal outcomes (the all-players-out assert, or the loop never
terminating because every player is out or passed). -/
def Game.incrementPlayer (g : Game) : Option Game :=
  if g.hands.all (fun h => h.empty) then none
  else
    match findEligible g g.playerCount ((g.player + 1) % g.playerCount) with
    | some i => some (g.setPlayer i)
    | none => none

/-- `Game::reset_cards_played`. -/
def Game.resetPiles (g : Game) : Game :=
  { g with piles := List.replicate g.playerCount [] }

/-- The input-request computation of `Game::what_next` (the `else` branch,
used when no event is pending). -/
def Game.inputTypeOf (g : Game) : InputType :=
  match g.state with
  | GState.playing cp =>
      if (g.piles.getD cp []).length < (g.hands.getD cp Hand.default).count then
        if g.playerCount ≤ g.cardsPlayedCount then
          InputType.playCardOrStartBid
        else
          InputType.playCard
      else
        InputType.startBid
  | GState.bidding _ _ _ _ _ => InputType.bidOrPass
  | GState.challenging _ _ _ => InputType.flipCard

/-- `Game::what_next` from `game.rs`.  Returns the drained (or computed) event
together with the successor state; `none` models the panics (`ChallengeStarted`
pending while not challenging, a pending `Input` event, or a fatal
`increment_player`). -/
def Game.whatNext (g : Game) (choice : Nat) : Option (Event × Game) :=
  match g.pending with
  | some ev =>
    match ev with
    | Event.challengeStarted =>
      match g.state with
      | GState.challenging ch target flipped =>
          if (List.range' ((g.piles.getD ch []).length - target)
                ((g.piles.getD ch []).length -
                  ((g.piles.getD ch []).length - target))).any
              (fun i => (g.piles.getD ch []).getD i Card.flower == Card.skull) then
            some (ev, { g with
              hands := g.hands.set ch ((g.hands.getD ch Hand.default).discardOne choice),
              state := GState.challenging ch target (flipped.set ch
                (List.range' ((g.piles.getD ch []).length - target)
                  ((g.piles.getD ch []).length -
                    ((g.piles.getD ch []).length - target)))),
              pending := some (Event.challengerChoseSkull ch ch) })
          else if target ≤ (g.piles.getD ch []).length then
            some (ev, { g with
              scores := g.scores.set ch (g.scores.getD ch 0 + 1),
              state := GState.challenging ch target (flipped.set ch
                (List.range' ((g.piles.getD ch []).length - target)
                  ((g.piles.getD ch []).length -
                    ((g.piles.getD ch []).length - target)))),
              pending := some (if g.scores.getD ch 0 + 1 ≠ 2 then
                  Event.challengeWon ch
                else
                  Event.challengeWonGameWon ch) })
          else
            some (ev, { g with
              state := GState.challenging ch target (flipped.set ch
                (List.range' ((g.piles.getD ch []).length - target)
                  ((g.piles.getD ch []).length -
                    ((g.piles.getD ch []).length - target)))),
              pending := none })
      | _ => none
    | Event.challengerChoseSkull ch sp =>
        if !(Game.resetPiles { g with state := GState.playing sp }).isPlayerOut ch then
          some (ev, { Game.resetPiles { g with state := GState.playing sp } with
            pending := none })
        else if ch = sp then
          match (Game.resetPiles { g with state := GState.playing sp }).incrementPlayer with
          | some g2 => some (ev, { g2 with pending := some (Event.playerOut ch) })
          | none => none
        else
          some (ev, { Game.resetPiles { g with state := GState.playing sp } with
            pending := some (Event.playerOut ch) })
    | Event.challengeWon p =>
        some (ev, Game.resetPiles { g with state := GState.playing p, pending := none })
    | Event.input _ _ => none
    | _ => some (ev, { g with pending := none })
  | none => some (Event.input g.player g.inputTypeOf, g)

/-- Outcome of `Game::respond`: success, a typed recoverable error (carrying
the state the call left behind), or a fatal panic. -/
inductive RespondOutcome
  | ok (g : Game)
  | err (e : ResponseError) (g : Game)
  | fatal
deriving DecidableEq, Repr

/-- `Game::respond` from `game.rs`. -/
def Game.respond (g : Game) (r : Response) (choice : Nat) : RespondOutcome :=
  if g.pending.isSome then RespondOutcome.err ResponseError.pendingEvent g
  else
    match g.state, r with
    | GState.playing cp, Response.playCard card =>
        match handSubList (g.hands.getD cp Hand.default) (g.piles.getD cp []) with
        | none => RespondOutcome.fatal
        | some rem =>
          if !rem.has card then RespondOutcome.err ResponseError.cardNotInHand g
          else
            if (g.piles.getD cp []).length < 4 then
              match Game.incrementPlayer
                  { g with piles := g.piles.set cp (g.piles.getD cp [] ++ [card]) } with
              | some g2 => RespondOutcome.ok g2
              | none => RespondOutcome.fatal
            else RespondOutcome.fatal
    | GState.playing cp, Response.bid n =>
        if g.cardsPlayedCount < n then
          RespondOutcome.err (ResponseError.bidTooHigh g.cardsPlayedCount) g
        else if n < g.cardsPlayedCount then
          RespondOutcome.ok { g with
            state := GState.bidding ((cp + 1) % g.playerCount) n cp g.cardsPlayedCount
              (List.replicate g.playerCount false),
            pending := some Event.bidStarted }
        else
          RespondOutcome.ok { g with
            state := GState.challenging cp g.cardsPlayedCount
              (List.replicate g.playerCount []),
            pending := some Event.challengeStarted }
    | GState.bidding cb hb _hbr mb passed, Response.bid n =>
        if mb < n then RespondOutcome.err (ResponseError.bidTooHigh mb) g
        else if n ≤ hb then RespondOutcome.err (ResponseError.bidTooLow (hb + 1)) g
        else if n = mb then
          RespondOutcome.ok { g with
            state := GState.challenging cb n (List.replicate g.playerCount []),
            pending := some Event.challengeStarted }
        else
          match Game.incrementPlayer { g with state := GState.bidding cb n cb mb passed } with
          | some g2 => RespondOutcome.ok g2
          | none => RespondOutcome.fatal
    | GState.bidding cb hb hbr mb passed, Response.pass =>
        if passed.getD cb false then RespondOutcome.fatal
        else
          if (passed.set cb true).count true = g.playerCount - 1 then
            RespondOutcome.ok { g with
              state := GState.challenging hbr hb (List.replicate g.playerCount []),
              pending := some Event.challengeStarted }
          else
            match Game.incrementPlayer
                { g with state := GState.bidding cb hb hbr mb (passed.set cb true) } with
            | some g2 => RespondOutcome.ok g2
            | none => RespondOutcome.fatal
    | GState.challenging ch target flipped, Response.flip p c =>
        if g.playerCount ≤ p || (g.piles.getD p []).length ≤ c then
          RespondOutcome.err ResponseError.invalidIndex g
        else if p = ch then RespondOutcome.err ResponseError.manuallyFlippingOwnCards g
        else if (flipped.getD p []).contains c then
          RespondOutcome.err ResponseError.cardAlreadyFlipped g
        else
          match (g.piles.getD p []).getD c Card.flower with
          | Card.skull =>
              RespondOutcome.ok { g with
                hands := g.hands.set ch ((g.hands.getD ch Hand.default).discardOne choice),
                pending := some (Event.challengerChoseSkull ch p) }
          | Card.flower =>
              if (flipped.getD p []).length < 4 then
                if len2d (flipped.set p (flipped.getD p [] ++ [c])) = target then
                  RespondOutcome.ok { g with
                    state := GState.challenging ch target
                      (flipped.set p (flipped.getD p [] ++ [c])),
                    scores := g.scores.set ch (g.scores.getD ch 0 + 1),
                    pending := some (if g.scores.getD ch 0 + 1 = 2 then
                        Event.challengeWonGameWon ch
                      else
                        Event.challengeWon ch) }
                else
                  RespondOutcome.ok { g with
                    state := GState.challenging ch target
                      (flipped.set p (flipped.getD p [] ++ [c])) }
              else RespondOutcome.fatal
    | _, _ => RespondOutcome.err (ResponseError.incorrectInputType g.inputTypeOf) g

/-- `has_unique_elements` from `game.rs` (HashSet-based duplicate check). -/
def nodupB : List Nat → Bool
  | [] => true
  | x :: xs => !xs.contains x && nodupB xs

/-- Insertion step for sorting pile lengths (`sort_unstable` on `usize`). -/
def insertSorted (x : Nat) : List Nat → List Nat
  | [] => [x]
  | y :: ys => if x ≤ y then x :: y :: ys else y :: insertSorted x ys

/-- Ascending sort of a list of `Nat` (the result of `sort_unstable`). -/
def sortNat (l : List Nat) : List Nat := l.foldr insertSorted []

/-- `Game::flipped_skulls`: skulls among the flipped positions, summed over
players (only meaningful while challenging). -/
def flippedSkullsOf (flipped : List (List Nat)) (piles : List (List Card)) : Nat :=
  ((flipped.zip piles).map (fun pr =>
    (pr.1.filter (fun i => pr.2.getD i Card.flower == Card.skull)).length)).sum

/-- `Game::assert_self_skull_correctly_declared`: the pending event must be
`ChallengerChoseSkull` with matching challenger and skull player. -/
def selfSkullDeclared (g : Game) : Bool :=
  match g.pending with
  | some (Event.challengerChoseSkull c s) => c == s
  | _ => false

/-- `Game::assert_valid` from `game.rs` as a boolean: `false` both for a failed
assertion and for the panics its checks can raise (out-of-range indexing,
`usize` underflow). -/
def Game.assertValid (g : Game) : Bool :=
  g.scores.all (fun s => decide (s ≤ 2)) &&
  g.hands.all Hand.valid &&
  ((List.range g.playerCount).all (fun i =>
    match handTryFrom (g.piles.getD i []) with
    | some ph => (g.hands.getD i Hand.default).is_superset_of ph
    | none => false)) &&
  (match g.state with
   | GState.playing _ => true
   | _ => decide (g.remainingPlayerCount ≤ g.cardsPlayedCount)) &&
  (let winners := (g.scores.filter (fun s => s == 2)).length
   match g.pending with
   | some (Event.challengeWonGameWon w) => winners == 1 && !g.isPlayerOut w
   | _ => winners == 0) &&
  (let lens := ((List.range g.playerCount).filter (fun i => !g.isPlayerOut i)).map
      (fun i => (g.piles.getD i []).length)
   let sorted := sortNat lens
   decide (0 < g.remainingPlayerCount) &&
     decide (sorted.getD (g.remainingPlayerCount - 1) 0 - sorted.getD 0 0 ≤ 1)) &&
  (match g.state with
   | GState.playing cp =>
       decide (cp < g.scores.length) && !g.isPlayerOut cp
   | GState.bidding cb hb hbr mb passed =>
       decide (cb < g.scores.length) && !g.isPlayerOut cb &&
       decide (hb < mb) &&
       decide (hbr < g.scores.length) && !g.isPlayerOut hbr &&
       (cb != hbr) &&
       decide (2 ≤ g.remainingPlayerCount) &&
       decide (passed.count true ≤ g.remainingPlayerCount - 2)
   | GState.challenging ch target flipped =>
       !g.isPlayerOut ch &&
       decide (ch < g.scores.length) &&
       decide (target ≤ g.cardsPlayedCount) &&
       decide (len2d flipped ≤ target) &&
       ((flipped.zip g.piles).all (fun pr =>
         decide (pr.1.length ≤ pr.2.length) &&
         pr.1.all (fun i => decide (i < pr.2.length)) &&
         nodupB pr.1)) &&
       (match g.pending with
        | some Event.challengeStarted => true
        | _ =>
          if target ≤ (g.piles.getD ch []).length then
            decide (target ≤ 4) &&
            (let off := 4 - target
             (flipped.getD ch [] ==
               List.range' off ((g.hands.getD ch Hand.default).count - off)) &&
             (if (g.piles.getD ch []).length < off then false
              else if ((g.piles.getD ch []).drop off).contains Card.skull then
                selfSkullDeclared g
              else true))
          else
            ((flipped.getD ch []).length == (g.piles.getD ch []).length) &&
            (if (g.piles.getD ch []).contains Card.skull then selfSkullDeclared g
             else true)) &&
       (match g.pending with
        | some (Event.challengerChoseSkull _ _) =>
            flippedSkullsOf flipped g.piles == 1
        | _ => flippedSkullsOf flipped g.piles == 0) &&
       (if len2d flipped = target then
          if g.scores.getD ch 0 ≠ 2 then
            g.pending == some (Event.challengeWon ch)
          else
            g.pending == some (Event.challengeWonGameWon ch)
        else true))

/-- `Game::new`: full hands, empty piles, zero scores, playing from player 0.
The `3 ≤ N ≤ 6` construction assert is the caller's obligation. -/
def Game.new (n : Nat) : Game :=
  { scores := List.replicate n 0
    hands := List.replicate n Hand.new
    piles := List.replicate n []
    state := GState.playing 0
    pending := none }

/-! ### Helper lemmas about lists -/

theorem getD_set_self {α : Type} (l : List α) (n : Nat) (a d : α) (h : n < l.length) :
    (l.set n a).getD n d = a := by
  rw [List.getD_eq_getElem?_getD, List.getElem?_set]
  simp [h]

theorem getD_set_ne {α : Type} (l : List α) (n m : Nat) (a d : α) (h : m ≠ n) :
    (l.set n a).getD m d = l.getD m d := by
  rw [List.getD_eq_getElem?_getD, List.getElem?_set, if_neg (fun hc => h hc.symm),
    ← List.getD_eq_getElem?_getD]

theorem getD_replicate {α : Type} (n i : Nat) (a d : α) :
    (List.replicate n a).getD i d = if i < n then a else d := by
  induction n generalizing i with
  | zero => simp [List.getD]
  | succ m ih =>
    cases i with
    | zero => simp [List.replicate, List.getD]
    | succ j =>
      simp only [List.replicate, List.getD_cons_succ, ih]
      by_cases hj : j < m
      · rw [if_pos hj, if_pos (by omega)]
      · rw [if_neg hj, if_neg (by omega)]

/-! ### Helper lemmas about hands -/

theorem superset_iff (a b : Hand) :
    a.is_superset_of b = true ↔ ((b.skull = true → a.skull = true) ∧ b.flowers ≤ a.flowers) := by
  rcases a with ⟨as_, af⟩
  rcases b with ⟨bs, bf⟩
  cases as_ <;> cases bs <;> simp [Hand.is_superset_of]

theorem superset_default (h : Hand) : h.is_superset_of Hand.default = true := by
  rw [superset_iff]
  exact ⟨fun hc => by simp [Hand.default] at hc, Nat.zero_le _⟩

theorem discard_flowers_le (h : Hand) (c : Nat) : (h.discardOne c).flowers ≤ h.flowers := by
  unfold Hand.discardOne
  split
  · split <;> simp [Nat.sub_le]
  · split <;> simp [Nat.sub_le]

/-! ### C10: `Hand::new` versus `Hand::default` -/

/-- C10: `Hand::new()` is the full starting hand (one skull / penalty card,
three flowers / safe cards, count 4) while `Hand::default()` is the empty hand
(no penalty, zero safe cards, count 0) that marks a player as eliminated, and
a hand equals `Hand::default()` exactly when `empty()` holds. -/
theorem hand_new_default_distinction :
    Hand.new ≠ Hand.default ∧
    Hand.new.skull = true ∧ Hand.new.flowers = 3 ∧ Hand.new.count = 4 ∧
    Hand.default.skull = false ∧ Hand.default.flowers = 0 ∧ Hand.default.count = 0 ∧
    (∀ h : Hand, h = Hand.default ↔ h.empty = true) := by
  refine ⟨by decide, rfl, rfl, by decide, rfl, rfl, by decide, ?_⟩
  intro h
  rcases h with ⟨s, f⟩
  cases s <;> simp [Hand.default, Hand.empty, Hand.count]

/-! ### C3: `Hand::discard_one` is biased, not uniform -/

/-- C3 evaluation: `discard_one` draws `choice` from `gen_range(0..=count)`,
a space of `count + 1 = 5` equally likely values for the full hand, and removes
the skull only for `choice = 0`.  So the penalty card is discarded with
probability 1/5, not the 1/4 a uniform choice among the 4 cards would give
(cross-multiplied: 1·4 ≠ 5·1); each draw does remove exactly one card. -/
theorem discard_one_nonuniform :
    ((List.range (Hand.new.count + 1)).filter
      (fun c => !(Hand.new.discardOne c).skull)).length = 1 ∧
    Hand.new.count + 1 = 5 ∧
    (∀ c, c < Hand.new.count + 1 → (Hand.new.discardOne c).count = Hand.new.count - 1) ∧
    ((List.range (Hand.new.count + 1)).filter
      (fun c => !(Hand.new.discardOne c).skull)).length * 4 ≠
      (List.range (Hand.new.count + 1)).length * 1 := by
  refine ⟨by decide, by decide, ?_, by decide⟩
  have h5 : ∀ c, c < 5 → (Hand.new.discardOne c).count = Hand.new.count - 1 := by decide
  intro c hc
  exact h5 c (by simpa [Hand.new, Hand.count] using hc)

/-! ### C2: the commit-to-bid handoff selects an eliminated player -/

/-- A valid mid-game position: player 1 has been eliminated (empty hand and
pile); players 0 and 2 each committed one flower; player 0 is to act. -/
def gHandoff : Game :=
  { scores := [0, 0, 0]
    hands := [Hand.new, Hand.default, Hand.new]
    piles := [[Card.flower], [], [Card.flower]]
    state := GState.playing 0
    pending := none }

/-- The state the engine produces from `gHandoff` on `Bid(1)`. -/
def gHandoffAfter : Game :=
  { gHandoff with
    state := GState.bidding 1 1 0 2 [false, false, false]
    pending := some Event.bidStarted }

/-- C2 evaluation: from a state that passes the engine's own validator and in
which player 1 is eliminated, `respond (Bid 1)` succeeds and installs
`currentBidder = (0+1) % 3 = 1` without skipping the eliminated player — the
resulting state names an eliminated current bidder and is rejected by
`assert_valid`. -/
theorem bid_handoff_selects_eliminated_player :
    gHandoff.assertValid = true ∧
    gHandoff.isPlayerOut 1 = true ∧
    gHandoff.respond (Response.bid 1) 0 = RespondOutcome.ok gHandoffAfter ∧
    gHandoffAfter.state = GState.bidding 1 1 0 2 [false, false, false] ∧
    gHandoffAfter.isPlayerOut 1 = true ∧
    gHandoffAfter.assertValid = false := by
  decide

/-! ### C9: `what_next` with no pending event is a pure, idempotent query -/

/-- C9: with no pending event buffered, `what_next` returns an input-request
event (for the current actor, with the phase-determined input kind) and leaves
the game untouched, so two consecutive calls return the identical event. -/
theorem what_next_idempotent (g : Game) (c1 c2 : Nat) (hp : g.pending = none) :
    g.whatNext c1 = some (Event.input g.player g.inputTypeOf, g) ∧
    g.whatNext c2 = some (Event.input g.player g.inputTypeOf, g) := by
  unfold Game.whatNext
  rw [hp]
  exact ⟨rfl, rfl⟩

/-- Witness for C9 at a concrete freshly constructed three-player game. -/
theorem what_next_idempotent_witness :
    Game.whatNext (Game.new 3) 0 = some (Event.input 0 InputType.playCard, Game.new 3) ∧
    Game.whatNext (Game.new 3) 7 = some (Event.input 0 InputType.playCard, Game.new 3) := by
  have h := what_next_idempotent (Game.new 3) 0 7 rfl
  exact h

/-! ### C5: `Bid(n)` while committing -/

/-- C5: in the Committing (`Playing`) phase with no pending event, `Bid(n)`
with `total` the sum of all pile lengths: errors with `BidTooHigh total` when
`n > total`; for `n < total` moves to Bidding with
`currentBidder = (cp+1) % N`, `highestBid = n`, `highestBidder = cp`,
`maxBid = total`, all passed flags false, buffering `BidStarted`; for
`n = total` moves straight to Resolving with `challenger = cp`,
`target = total`, all flip sets empty, buffering `ChallengeStarted`. -/
theorem commit_bid_transition (g : Game) (cp n choice : Nat)
    (hs : g.state = GState.playing cp) (hp : g.pending = none) :
    (g.cardsPlayedCount < n →
      g.respond (Response.bid n) choice =
        RespondOutcome.err (ResponseError.bidTooHigh g.cardsPlayedCount) g) ∧
    (n < g.cardsPlayedCount →
      g.respond (Response.bid n) choice =
        RespondOutcome.ok { g with
          state := GState.bidding ((cp + 1) % g.playerCount) n cp g.cardsPlayedCount
            (List.replicate g.playerCount false)
          pending := some Event.bidStarted }) ∧
    (n = g.cardsPlayedCount →
      g.respond (Response.bid n) choice =
        RespondOutcome.ok { g with
          state := GState.challenging cp g.cardsPlayedCount
            (List.replicate g.playerCount [])
          pending := some Event.challengeStarted }) := by
  have hps : g.pending.isSome = false := by rw [hp]; rfl
  refine ⟨?_, ?_, ?_⟩ <;> intro h
  · simp [Game.respond, hps, hs, h]
  · have h1 : ¬ g.cardsPlayedCount < n := by omega
    simp [Game.respond, hps, hs, h1, h]
  · have h1 : ¬ g.cardsPlayedCount < n := by omega
    have h2 : ¬ n < g.cardsPlayedCount := by omega
    simp [Game.respond, hps, hs, h1, h2, h]

/-- The commit-to-bid handoff scenario of the spec: three full-handed players,
one flower committed each, player 0 to act. -/
def gCommit : Game :=
  { scores := [0, 0, 0]
    hands := [Hand.new, Hand.new, Hand.new]
    piles := [[Card.flower], [Card.flower], [Card.flower]]
    state := GState.playing 0
    pending := none }

/-- Witness for C5: from `gCommit`, `Bid(2)` (< total 3) starts bidding at
player 1 with `highestBid 2`, `highestBidder 0`, `maxBid 3`. -/
theorem commit_bid_transition_witness :
    gCommit.respond (Response.bid 2) 0 =
      RespondOutcome.ok { gCommit with
        state := GState.bidding 1 2 0 3 [false, false, false]
        pending := some Event.bidStarted } := by
  have h := (commit_bid_transition gCommit 0 2 0 rfl rfl).2.1 (by decide)
  exact h

/-! ### C1: passing while bidding -/

theorem findEligible_eligible (g : Game) :
    ∀ fuel idx i, findEligible g fuel idx = some i →
      g.isPlayerOut i = false ∧ g.hasPassed i = false := by
  intro fuel
  induction fuel with
  | zero =>
    intro idx i h
    exact Option.noConfusion h
  | succ n ih =>
    intro idx i h
    unfold findEligible at h
    split at h
    · exact ih _ i h
    · rename_i hcond
      cases h
      simpa [not_or] using hcond

theorem incrementPlayer_spec (g g2 : Game) (h : g.incrementPlayer = some g2) :
    ∃ i, g2 = g.setPlayer i ∧ g.isPlayerOut i = false ∧ g.hasPassed i = false := by
  unfold Game.incrementPlayer at h
  split at h
  · exact Option.noConfusion h
  · split at h
    · rename_i i hfind
      cases h
      exact ⟨i, rfl, findEligible_eligible g _ _ _ hfind⟩
    · exact Option.noConfusion h

/-- A valid bidding position with an eliminated player: three players, player 2
eliminated, one flower committed by each of players 0 and 1, player 0 opened
the bidding at 1 and player 1 is to act. -/
def gPass : Game :=
  { scores := [0, 0, 0]
    hands := [Hand.new, Hand.new, Hand.default]
    piles := [[Card.flower], [Card.flower], []]
    state := GState.bidding 1 1 0 2 [false, false, false]
    pending := none }

/-- The state the engine actually produces from `gPass` on `Pass`. -/
def gPassAfter : Game :=
  { gPass with state := GState.bidding 0 1 0 2 [false, true, false] }

/-- C1 counterexample: in `gPass` (which the engine's validator accepts) the
remaining player count is 2, so after player 1 passes, the passed count (1)
equals `remainingPlayerCount - 1` and the claim demands a transition to
Resolving — but the engine compares against `N - 1 = 2`, stays in Bidding and
merely advances the bidder (back to the highest bidder, player 0). -/
theorem pass_remaining_threshold_counterexample :
    gPass.assertValid = true ∧
    gPass.remainingPlayerCount = 2 ∧
    gPass.respond Response.pass 0 = RespondOutcome.ok gPassAfter ∧
    gPassAfter.state = GState.bidding 0 1 0 2 [false, true, false] ∧
    ([false, true, false].count true = gPass.remainingPlayerCount - 1) ∧
    (∀ t f, gPassAfter.state ≠ GState.challenging 0 t f) ∧
    gPassAfter.pending = none := by
  refine ⟨by decide, by decide, by decide, by decide, by decide, ?_, by decide⟩
  intro t f h
  exact GState.noConfusion (show GState.bidding 0 1 0 2 [false, true, false] =
    GState.challenging 0 t f from h)

/-- C1 (amended): when the current bidder passes, the engine marks them passed
and transitions to Resolving (challenger = highest bidder, target = highest
bid, buffering `ChallengeStarted`) exactly when the number of passed players
equals `playerCount - 1` (the total player count, not the remaining count);
otherwise any successful outcome advances to a bidder who is neither
eliminated nor passed, leaving all other bid bookkeeping unchanged. -/
theorem pass_transition_threshold (g : Game) (cb hb hbr mb choice : Nat)
    (passed : List Bool)
    (hs : g.state = GState.bidding cb hb hbr mb passed)
    (hp : g.pending = none)
    (hnp : passed.getD cb false = false) :
    ((passed.set cb true).count true = g.playerCount - 1 →
      g.respond Response.pass choice =
        RespondOutcome.ok { g with
          state := GState.challenging hbr hb (List.replicate g.playerCount [])
          pending := some Event.challengeStarted }) ∧
    ((passed.set cb true).count true ≠ g.playerCount - 1 →
      ∀ g2, g.respond Response.pass choice = RespondOutcome.ok g2 →
        ∃ cb2, g2 = { g with state := GState.bidding cb2 hb hbr mb (passed.set cb true) } ∧
          g2.isPlayerOut cb2 = false ∧
          (passed.set cb true).getD cb2 false = false ∧
          g2.pending = none) := by
  have hps : g.pending.isSome = false := by rw [hp]; rfl
  have hnp2 : passed[cb]?.getD false = false := by
    rw [← List.getD_eq_getElem?_getD]
    exact hnp
  constructor
  · intro hcount
    simp [Game.respond, hps, hs, hnp, hnp2, hcount]
  · intro hcount g2 hok
    rw [show g.respond Response.pass choice =
        (match Game.incrementPlayer
            { g with state := GState.bidding cb hb hbr mb (passed.set cb true) } with
         | some gx => RespondOutcome.ok gx
         | none => RespondOutcome.fatal) by
      simp [Game.respond, hps, hs, hnp, hnp2, hcount]] at hok
    set g1 : Game := { g with state := GState.bidding cb hb hbr mb (passed.set cb true) }
      with hg1
    rcases hinc : g1.incrementPlayer with _ | gx
    · rw [hinc] at hok
      exact RespondOutcome.noConfusion hok
    · rw [hinc] at hok
      have hg2 : g2 = gx := by
        cases hok
        rfl
      obtain ⟨i, hset, hout, hpass⟩ := incrementPlayer_spec g1 gx hinc
      refine ⟨i, ?_, ?_, ?_, ?_⟩
      · rw [hg2, hset]
        rfl
      · rw [hg2, hset]
        exact hout
      · simpa [Game.hasPassed, hg1] using hpass
      · rw [hg2, hset]
        exact hp

/-- Concrete bidding position for the C1 witness: three live players, player 1
to act, player 0 holds the highest bid 1, max bid 3. -/
def gPassW : Game :=
  { scores := [0, 0, 0]
    hands := [Hand.new, Hand.new, Hand.new]
    piles := [[Card.flower], [Card.flower], [Card.flower]]
    state := GState.bidding 1 1 0 3 [false, false, false]
    pending := none }

/-- `gPassW` after player 1 passes: bidding advances to player 2. -/
def gPassWAfter : Game :=
  { gPassW with state := GState.bidding 2 1 0 3 [false, true, false] }

/-- Like `gPassW` but player 0 already passed and player 2 is to act;
one more pass reaches the `N - 1` threshold. -/
def gPassW2 : Game :=
  { gPassW with state := GState.bidding 2 1 0 3 [true, false, false] }

/-- Witness for C1 (amended), exercising both branches: below the threshold a
pass advances to an eligible bidder; at the threshold it starts the challenge
for the highest bidder at the highest bid. -/
theorem pass_transition_threshold_witness :
    (∃ cb2, gPassWAfter = { gPassW with
        state := GState.bidding cb2 1 0 3 [false, true, false] } ∧
      gPassWAfter.isPlayerOut cb2 = false ∧
      ([false, true, false] : List Bool).getD cb2 false = false ∧
      gPassWAfter.pending = none) ∧
    gPassW2.respond Response.pass 0 = RespondOutcome.ok { gPassW2 with
      state := GState.challenging 0 1 (List.replicate 3 [])
      pending := some Event.challengeStarted } := by
  constructor
  · exact (pass_transition_threshold gPassW 1 1 0 3 0 [false, false, false]
      rfl rfl rfl).2 (by decide) gPassWAfter (by decide)
  · exact (pass_transition_threshold gPassW2 2 1 0 3 0 [true, false, false]
      rfl rfl rfl).1 (by decide)

/-! ### C6: errors leave the game unmodified -/

/-- C6: whenever `respond` returns a typed recoverable error — pending event
not drained, incorrect input type, card not in hand, bid too low or too high,
invalid flip index, card already flipped, or manually flipping the
challenger's own card — the game state it hands back is exactly the state it
was called on. -/
theorem respond_error_leaves_game_unchanged :
    ∀ (g : Game) (r : Response) (choice : Nat) (e : ResponseError) (g2 : Game),
      g.respond r choice = RespondOutcome.err e g2 → g2 = g := by
  intro g r choice e g2 h
  unfold Game.respond at h
  repeat' split at h
  all_goals
    first
      | (injection h with h1 h2; exact h2.symm)
      | exact RespondOutcome.noConfusion h

/-- Witness for C6: a game with a buffered event rejects any response with
`PendingEvent` and is returned unchanged. -/
theorem respond_error_leaves_game_unchanged_witness :
    gCommit.respond (Response.bid 9) 0 =
      RespondOutcome.err (ResponseError.bidTooHigh 3) gCommit ∧
    gCommit = gCommit := by
  exact ⟨by decide, respond_error_leaves_game_unchanged gCommit (Response.bid 9) 0
    (ResponseError.bidTooHigh 3) gCommit (by decide)⟩

/-! ### C7: `Flip` validation while resolving -/

theorem length_lt_of_nodup_bounded (l : List Nat) (n c : Nat)
    (hnd : l.Nodup) (hb : ∀ x ∈ l, x < n) (hc : c < n) (hcl : c ∉ l) :
    l.length < n := by
  have hnd2 : (c :: l).Nodup := List.nodup_cons.2 ⟨hcl, hnd⟩
  have hsub : (c :: l).toFinset ⊆ Finset.range n := by
    intro x hx
    rw [List.mem_toFinset, List.mem_cons] at hx
    rw [Finset.mem_range]
    rcases hx with hx | hx
    · omega
    · exact hb x hx
  have hcard := Finset.card_le_card hsub
  rw [List.toFinset_card_of_nodup hnd2, Finset.card_range] at hcard
  simpa using hcard

/-- C7: while Resolving with no pending event, `Flip(p, c)` fails exactly when
`p` is out of range or `c` is not below player `p`'s pile length (invalid
index), or `p` is the challenger (manually flipping own cards), or position
`(p, c)` was already flipped; in every other case it succeeds.  The hypotheses
on `flipped` are the validator's flip-set invariants (in-range, no
duplicates) plus the structural pile capacity of 4. -/
theorem flip_error_conditions (g : Game) (ch target p c choice : Nat)
    (flipped : List (List Nat))
    (hs : g.state = GState.challenging ch target flipped)
    (hp : g.pending = none)
    (hin : ∀ x ∈ flipped.getD p [], x < (g.piles.getD p []).length)
    (hnd : (flipped.getD p []).Nodup)
    (hcap : (g.piles.getD p []).length ≤ 4) :
    ((∃ e g2, g.respond (Response.flip p c) choice = RespondOutcome.err e g2) ↔
      (g.playerCount ≤ p ∨ (g.piles.getD p []).length ≤ c ∨ p = ch ∨
        c ∈ flipped.getD p [])) ∧
    (¬(g.playerCount ≤ p ∨ (g.piles.getD p []).length ≤ c ∨ p = ch ∨
        c ∈ flipped.getD p []) →
      ∃ g2, g.respond (Response.flip p c) choice = RespondOutcome.ok g2) := by
  have hps : g.pending.isSome = false := by rw [hp]; rfl
  have hsucc : ¬(g.playerCount ≤ p ∨ (g.piles.getD p []).length ≤ c ∨ p = ch ∨
      c ∈ flipped.getD p []) →
      ∃ g2, g.respond (Response.flip p c) choice = RespondOutcome.ok g2 := by
    intro hno
    push_neg at hno
    obtain ⟨hno1, hno2, hno3, hno4⟩ := hno
    have hcond : ¬(g.playerCount ≤ p ∨ (g.piles.getD p []).length ≤ c) := by omega
    rcases hcard : (g.piles.getD p []).getD c Card.flower with _ | _
    · -- flower: the push is within capacity
      have hlen : (flipped.getD p []).length < 4 :=
        Nat.lt_of_lt_of_le (length_lt_of_nodup_bounded _ _ c hnd hin (by omega) hno4) hcap
      by_cases htgt : len2d (flipped.set p (flipped.getD p [] ++ [c])) = target
      · simp only [List.getD_eq_getElem?_getD] at hcond hcard hlen hno4 htgt
        cases hre : g.respond (Response.flip p c) choice with
        | ok g2 => exact ⟨g2, rfl⟩
        | err e g2 =>
          simp [Game.respond, hps, hs, hcond, hno3, hno4, hcard, hlen, htgt] at hre
        | fatal =>
          simp [Game.respond, hps, hs, hcond, hno3, hno4, hcard, hlen, htgt] at hre
      · simp only [List.getD_eq_getElem?_getD] at hcond hcard hlen hno4 htgt
        cases hre : g.respond (Response.flip p c) choice with
        | ok g2 => exact ⟨g2, rfl⟩
        | err e g2 =>
          simp [Game.respond, hps, hs, hcond, hno3, hno4, hcard, hlen, htgt] at hre
        | fatal =>
          simp [Game.respond, hps, hs, hcond, hno3, hno4, hcard, hlen, htgt] at hre
    · simp only [List.getD_eq_getElem?_getD] at hcond hcard hno4
      cases hre : g.respond (Response.flip p c) choice with
      | ok g2 => exact ⟨g2, rfl⟩
      | err e g2 => simp [Game.respond, hps, hs, hcond, hno3, hno4, hcard] at hre
      | fatal => simp [Game.respond, hps, hs, hcond, hno3, hno4, hcard] at hre
  refine ⟨⟨?_, ?_⟩, hsucc⟩
  · intro hex
    by_contra hno
    obtain ⟨g2, hok⟩ := hsucc hno
    obtain ⟨e, g3, herr⟩ := hex
    rw [hok] at herr
    exact RespondOutcome.noConfusion herr
  · intro hyes
    rcases Nat.lt_or_ge p g.playerCount with hplt | hpge
    · rcases Nat.lt_or_ge c (g.piles.getD p []).length with hclt | hcge
      · have hcond : ¬(g.playerCount ≤ p ∨ (g.piles.getD p []).length ≤ c) := by omega
        by_cases hpc : p = ch
        · subst hpc
          refine ⟨ResponseError.manuallyFlippingOwnCards, g, ?_⟩
          simp only [List.getD_eq_getElem?_getD] at hcond
          simp [Game.respond, hps, hs, hcond]
        · have hmem : c ∈ flipped.getD p [] := by tauto
          refine ⟨ResponseError.cardAlreadyFlipped, g, ?_⟩
          simp only [List.getD_eq_getElem?_getD] at hcond hmem
          simp [Game.respond, hps, hs, hcond, hpc, hmem]
      · refine ⟨ResponseError.invalidIndex, g, ?_⟩
        have hor : g.playerCount ≤ p ∨ (g.piles.getD p []).length ≤ c := Or.inr hcge
        simp only [List.getD_eq_getElem?_getD] at hor
        simp [Game.respond, hps, hs, hor]
    · refine ⟨ResponseError.invalidIndex, g, ?_⟩
      have hor : g.playerCount ≤ p ∨ (g.piles.getD p []).length ≤ c := Or.inl hpge
      simp only [List.getD_eq_getElem?_getD] at hor
      simp [Game.respond, hps, hs, hor]

/-- Concrete resolving position for the C7 witness: challenger 0, target 2,
players 1 and 2 each committed flowers, nothing flipped yet for player 1. -/
def gFlip : Game :=
  { scores := [0, 0, 0]
    hands := [Hand.new, Hand.new, Hand.new]
    piles := [[Card.flower], [Card.flower, Card.flower], [Card.flower]]
    state := GState.challenging 0 2 [[0], [], []]
    pending := none }

/-- Witness for C7: at `gFlip`, flipping player 1's card 0 is legal (the error
disjunction is false) and indeed succeeds. -/
theorem flip_error_conditions_witness :
    ∃ g2, gFlip.respond (Response.flip 1 0) 0 = RespondOutcome.ok g2 := by
  refine (flip_error_conditions gFlip 0 2 1 0 0 [[0], [], []] rfl rfl ?_ ?_ ?_).2 ?_
  · decide
  · decide
  · decide
  · decide

/-! ### C4: draining `ChallengeStarted` auto-flips the challenger's own pile -/

/-- C4: when `what_next` drains a pending `ChallengeStarted` in the Resolving
phase, it flips the challenger's own pile positions from offset
`pileLen - target` (saturating at 0) through the end of the pile.  If any of
those cards is a skull, the challenger discards one random card and
`ChallengerChoseSkull` with holder = challenger becomes pending; otherwise if
`target ≤ pileLen` the challenger's score is incremented by exactly 1 and
`ChallengeWon` (or `ChallengeWonGameWon` at score 2) becomes pending;
otherwise the pending event is cleared and the state stays Resolving. -/
theorem challenge_start_resolution (g : Game) (ch target choice : Nat)
    (flipped : List (List Nat))
    (hs : g.state = GState.challenging ch target flipped)
    (hp : g.pending = some Event.challengeStarted) :
    ((∃ i, i < (g.piles.getD ch []).length ∧
        (g.piles.getD ch []).length - target ≤ i ∧
        (g.piles.getD ch []).getD i Card.flower = Card.skull) →
      g.whatNext choice = some (Event.challengeStarted, { g with
        hands := g.hands.set ch ((g.hands.getD ch Hand.default).discardOne choice)
        state := GState.challenging ch target (flipped.set ch
          (List.range' ((g.piles.getD ch []).length - target)
            ((g.piles.getD ch []).length - ((g.piles.getD ch []).length - target))))
        pending := some (Event.challengerChoseSkull ch ch) })) ∧
    ((∀ i, i < (g.piles.getD ch []).length →
        (g.piles.getD ch []).length - target ≤ i →
        (g.piles.getD ch []).getD i Card.flower = Card.flower) →
      target ≤ (g.piles.getD ch []).length →
      g.whatNext choice = some (Event.challengeStarted, { g with
        scores := g.scores.set ch (g.scores.getD ch 0 + 1)
        state := GState.challenging ch target (flipped.set ch
          (List.range' ((g.piles.getD ch []).length - target)
            ((g.piles.getD ch []).length - ((g.piles.getD ch []).length - target))))
        pending := some (if g.scores.getD ch 0 + 1 ≠ 2 then Event.challengeWon ch
          else Event.challengeWonGameWon ch) })) ∧
    ((∀ i, i < (g.piles.getD ch []).length →
        (g.piles.getD ch []).length - target ≤ i →
        (g.piles.getD ch []).getD i Card.flower = Card.flower) →
      (g.piles.getD ch []).length < target →
      g.whatNext choice = some (Event.challengeStarted, { g with
        state := GState.challenging ch target (flipped.set ch
          (List.range' ((g.piles.getD ch []).length - target)
            ((g.piles.getD ch []).length - ((g.piles.getD ch []).length - target))))
        pending := none })) := by
  have hoff : (g.piles.getD ch []).length - target +
      ((g.piles.getD ch []).length - ((g.piles.getD ch []).length - target)) =
      (g.piles.getD ch []).length := by omega
  refine ⟨?_, ?_, ?_⟩
  · intro hsk
    obtain ⟨i, hi1, hi2, hi3⟩ := hsk
    have hany : (List.range' ((g.piles.getD ch []).length - target)
        ((g.piles.getD ch []).length - ((g.piles.getD ch []).length - target))).any
        (fun j => (g.piles.getD ch []).getD j Card.flower == Card.skull) = true := by
      rw [List.any_eq_true]
      refine ⟨i, List.mem_range'_1.mpr ⟨hi2, by omega⟩, ?_⟩
      simp only [List.getD_eq_getElem?_getD] at hi3
      simp [hi3]
    simp only [List.getD_eq_getElem?_getD] at hany
    simp [Game.whatNext, hp, hs, hany]
  · intro hfl htle
    have hany : (List.range' ((g.piles.getD ch []).length - target)
        ((g.piles.getD ch []).length - ((g.piles.getD ch []).length - target))).any
        (fun j => (g.piles.getD ch []).getD j Card.flower == Card.skull) = false := by
      rw [List.any_eq_false]
      intro x hx
      obtain ⟨hx1, hx2⟩ := List.mem_range'_1.mp hx
      rw [hfl x (by omega) hx1]
      simp
    simp only [List.getD_eq_getElem?_getD] at hany
    have htle2 : target ≤ (g.piles[ch]?.getD []).length := by
      simpa [← List.getD_eq_getElem?_getD] using htle
    simp [Game.whatNext, hp, hs, hany, htle2]
  · intro hfl htgt
    have hany : (List.range' ((g.piles.getD ch []).length - target)
        ((g.piles.getD ch []).length - ((g.piles.getD ch []).length - target))).any
        (fun j => (g.piles.getD ch []).getD j Card.flower == Card.skull) = false := by
      rw [List.any_eq_false]
      intro x hx
      obtain ⟨hx1, hx2⟩ := List.mem_range'_1.mp hx
      rw [hfl x (by omega) hx1]
      simp
    simp only [List.getD_eq_getElem?_getD] at hany
    have htgt2 : ¬ target ≤ (g.piles[ch]?.getD []).length := by
      simpa [← List.getD_eq_getElem?_getD] using htgt
    simp [Game.whatNext, hp, hs, hany, htgt2]

/-- Concrete resolving position for the C4 witness: forced challenge at
target 1 with one flower committed per player and `ChallengeStarted` pending. -/
def gResolve : Game :=
  { scores := [0, 0, 0]
    hands := [Hand.new, Hand.new, Hand.new]
    piles := [[Card.flower], [Card.flower], [Card.flower]]
    state := GState.challenging 0 1 [[], [], []]
    pending := some Event.challengeStarted }

/-- Witness for C4: draining `ChallengeStarted` at `gResolve` auto-flips the
challenger's own flower (offset 0), finds no skull, and since target 1 is at
most the own pile length the challenge is immediately won: score 1 and a
pending `ChallengeWon 0`. -/
theorem challenge_start_resolution_witness :
    gResolve.whatNext 0 = some (Event.challengeStarted,
      { gResolve with
        scores := [1, 0, 0]
        state := GState.challenging 0 1 [[0], [], []]
        pending := some (Event.challengeWon 0) }) := by
  have h := (challenge_start_resolution gResolve 0 1 0 [[], [], []] rfl rfl).2.1
    (by decide) (by decide)
  exact h

/-! ### C8: per-player card-conservation invariant -/

/-- The game reached from a fresh 3-player game after player 0 plays one
flower: the stored hand still holds all 3 flowers while the pile holds one. -/
def gFreshAfter : Game :=
  { scores := [0, 0, 0]
    hands := [Hand.new, Hand.new, Hand.new]
    piles := [[Card.flower], [], []]
    state := GState.playing 1
    pending := none }

/-- C8 counterexample: hands retain played cards (`PlayCard` appends to the
pile without removing from the hand), so after a single flower is played from
a fresh game, safe cards in the stored hand (3) plus safe cards in the pile
(1) already exceed 3, refuting the claim read over the stored hand. -/
theorem hand_plus_pile_bound_counterexample :
    (Game.new 3).respond (Response.playCard Card.flower) 0 =
      RespondOutcome.ok gFreshAfter ∧
    (gFreshAfter.hands.getD 0 Hand.default).flowers = 3 ∧
    ((gFreshAfter.piles.getD 0 []).filter (fun c => c == Card.flower)).length = 1 ∧
    ¬((gFreshAfter.hands.getD 0 Hand.default).flowers +
      ((gFreshAfter.piles.getD 0 []).filter (fun c => c == Card.flower)).length ≤ 3) := by
  decide

/-- Whether the pending event is `ChallengerChoseSkull` — the one transient
window (a lost challenge whose acknowledgement will reset the piles) in which
the pile need not be a sub-multiset of the stored hand. -/
def isCCS : Option Event → Bool
  | some (Event.challengerChoseSkull _ _) => true
  | _ => false

/-- The per-player card condition: the pile parses as a legal hand (at most
one skull, at most three flowers) and, when `req` is set, is a sub-multiset
of the stored hand. -/
def supersetOk (h : Hand) (pile : List Card) (req : Bool) : Bool :=
  match handTryFrom pile with
  | some ph => !req || h.is_superset_of ph
  | none => false

/-- The card-conservation invariant over explicit components. -/
def InvP (scores : List Nat) (hands : List Hand) (piles : List (List Card))
    (pending : Option Event) : Prop :=
  scores.length = hands.length ∧ piles.length = hands.length ∧
  ∀ i, i < hands.length →
    (hands.getD i Hand.default).valid = true ∧
    supersetOk (hands.getD i Hand.default) (piles.getD i []) (!isCCS pending) = true

/-- C8 (amended) invariant: each stored hand is valid (≤ 3 safe cards), each
pile is a legal hand's worth of cards, and — except while a lost-challenge
`ChallengerChoseSkull` event is pending — each pile is a sub-multiset of its
owner's stored hand. -/
def Game.Inv (g : Game) : Prop := InvP g.scores g.hands g.piles g.pending

theorem supersetOk_weaken (h : Hand) (pile : List Card) (req req2 : Bool)
    (hOk : supersetOk h pile req = true) : supersetOk h pile (req2 && req) = true := by
  unfold supersetOk at hOk ⊢
  rcases hty : handTryFrom pile with _ | ph
  · rw [hty] at hOk
    exact hOk
  · rw [hty] at hOk
    cases req <;> cases req2 <;> simp_all

theorem supersetOk_empty (h : Hand) (req : Bool) : supersetOk h [] req = true := by
  have hne : handTryFrom [] = some Hand.default := rfl
  unfold supersetOk
  rw [hne]
  cases req <;> simp [superset_default]

theorem InvP_pending_any (sc : List Nat) (hd : List Hand) (pl : List (List Card))
    (pe pe2 : Option Event) (h : InvP sc hd pl pe) (hpre : isCCS pe = false) :
    InvP sc hd pl pe2 := by
  refine ⟨h.1, h.2.1, fun i hi => ⟨(h.2.2 i hi).1, ?_⟩⟩
  have hOk := (h.2.2 i hi).2
  rw [hpre] at hOk
  have := supersetOk_weaken _ _ _ (!isCCS pe2) hOk
  simpa using this

theorem InvP_reset (sc : List Nat) (hd : List Hand) (pl : List (List Card))
    (pe pe2 : Option Event) (h : InvP sc hd pl pe) :
    InvP sc hd (List.replicate hd.length []) pe2 := by
  refine ⟨h.1, by simp, fun i hi => ⟨(h.2.2 i hi).1, ?_⟩⟩
  rw [getD_replicate _ _ _ _]
  rw [if_pos hi]
  exact supersetOk_empty _ _

theorem InvP_discard (sc : List Nat) (hd : List Hand) (pl : List (List Card))
    (pe : Option Event) (a b : Nat) (h : InvP sc hd pl pe) (ch choice : Nat) :
    InvP sc (hd.set ch ((hd.getD ch Hand.default).discardOne choice)) pl
      (some (Event.challengerChoseSkull a b)) := by
  refine ⟨by simpa using h.1, by simpa using h.2.1, fun i hi => ?_⟩
  have hi2 : i < hd.length := by simpa using hi
  rcases Nat.lt_or_ge ch hd.length with hch | hch
  · by_cases hieq : i = ch
    · subst hieq
      rw [getD_set_self _ _ _ _ hch]
      constructor
      · have hv := (h.2.2 i hi2).1
        unfold Hand.valid at hv ⊢
        have := discard_flowers_le (hd.getD i Hand.default) choice
        simp only [decide_eq_true_eq] at hv ⊢
        omega
      · have hOk := (h.2.2 i hi2).2
        unfold supersetOk at hOk ⊢
        rcases hty : handTryFrom (pl.getD i []) with _ | ph
        · rw [hty] at hOk
          exact hOk
        · simp [isCCS]
    · rw [getD_set_ne _ _ _ _ _ hieq]
      refine ⟨(h.2.2 i hi2).1, ?_⟩
      have hOk := (h.2.2 i hi2).2
      unfold supersetOk at hOk ⊢
      rcases hty : handTryFrom (pl.getD i []) with _ | ph
      · rw [hty] at hOk
        exact hOk
      · simp [isCCS]
  · rw [List.set_eq_of_length_le hch]
    refine ⟨(h.2.2 i hi2).1, ?_⟩
    have hOk := (h.2.2 i hi2).2
    unfold supersetOk at hOk ⊢
    rcases hty : handTryFrom (pl.getD i []) with _ | ph
    · rw [hty] at hOk
      exact hOk
    · simp [isCCS]

theorem handTryFromAux_append (l : List Card) (c : Card) : ∀ s f,
    handTryFromAux s f (l ++ [c]) =
      match handTryFromAux s f l with
      | some ph =>
        match c with
        | Card.skull => if ph.skull then none else some { ph with skull := true }
        | Card.flower =>
            if ph.flowers < 3 then some { ph with flowers := ph.flowers + 1 } else none
      | none => none := by
  induction l with
  | nil =>
    intro s f
    cases c <;> cases s <;> simp [handTryFromAux]
  | cons hd tl ih =>
    intro s f
    cases hd with
    | flower =>
      by_cases hf : f < 3
      · simp only [List.cons_append, handTryFromAux, if_pos hf]
        exact ih s (f + 1)
      · simp [handTryFromAux, if_neg hf]
    | skull =>
      by_cases hsk : s = true
      · subst hsk
        simp [handTryFromAux]
      · have hs2 : s = false := by simpa using hsk
        subst hs2
        have hstep : handTryFromAux false f ((Card.skull :: tl) ++ [c]) =
            handTryFromAux true f (tl ++ [c]) := rfl
        have hstep2 : handTryFromAux false f (Card.skull :: tl) =
            handTryFromAux true f tl := rfl
        rw [hstep, hstep2]
        exact ih true f

/-- If the cards still available (`hand − pile`) contain `card`, then pushing
`card` onto the pile keeps the pile a legal sub-multiset of the hand. -/
theorem tryFrom_append_of_sub (hand ph rem : Hand) (pile : List Card) (card : Card)
    (hty : handTryFrom pile = some ph)
    (hsup : hand.is_superset_of ph = true)
    (hrem : rem = { skull := xor hand.skull ph.skull, flowers := hand.flowers - ph.flowers })
    (hhas : rem.has card = true)
    (hvalid : hand.valid = true) :
    ∃ ph2, handTryFrom (pile ++ [card]) = some ph2 ∧ hand.is_superset_of ph2 = true := by
  have hsup2 := (superset_iff hand ph).mp hsup
  have hv : hand.flowers ≤ 3 := by
    unfold Hand.valid at hvalid
    simp only [decide_eq_true_eq] at hvalid
    omega
  unfold handTryFrom at hty ⊢
  cases card with
  | flower =>
    have hflow : ph.flowers < hand.flowers := by
      subst hrem
      unfold Hand.has at hhas
      simp only [decide_eq_true_eq] at hhas
      omega
    have h3 : ph.flowers < 3 := by omega
    refine ⟨{ ph with flowers := ph.flowers + 1 }, ?_, ?_⟩
    · simp [handTryFromAux_append, hty, h3]
    · rw [superset_iff]
      refine ⟨fun hps => hsup2.1 hps, ?_⟩
      show ph.flowers + 1 ≤ hand.flowers
      omega
  | skull =>
    have hps : ph.skull = false := by
      subst hrem
      unfold Hand.has Hand.has_skull at hhas
      simp only at hhas
      cases hph : ph.skull
      · rfl
      · have := hsup2.1 hph
        rw [hph, this] at hhas
        simp at hhas
    have hhs : hand.skull = true := by
      subst hrem
      unfold Hand.has Hand.has_skull at hhas
      simp only at hhas
      rw [hps] at hhas
      cases hh : hand.skull
      · rw [hh] at hhas
        simp at hhas
      · rfl
    refine ⟨{ ph with skull := true }, ?_, ?_⟩
    · simp [handTryFromAux_append, hty, hps]
    · rw [superset_iff]
      refine ⟨fun _ => hhs, ?_⟩
      show ph.flowers ≤ hand.flowers
      exact hsup2.2

theorem InvP_score_pending (sc : List Nat) (hd : List Hand) (pl : List (List Card))
    (pe pe2 : Option Event) (i s : Nat)
    (h : InvP sc hd pl pe) (hpre : isCCS pe = false) :
    InvP (sc.set i s) hd pl pe2 := by
  have h2 := InvP_pending_any sc hd pl pe pe2 h hpre
  exact ⟨by simpa using h2.1, h2.2.1, h2.2.2⟩

theorem respond_preserves_inv (g : Game) (hInv : g.Inv) :
    ∀ r choice g2, g.respond r choice = RespondOutcome.ok g2 → g2.Inv := by
  intro r choice g2 hok
  unfold Game.respond at hok
  split at hok
  · exact RespondOutcome.noConfusion hok
  · rename_i hpend
    have hpe : g.pending = none := by
      cases hg : g.pending
      · rfl
      · rw [hg] at hpend
        simp at hpend
    replace hInv : InvP g.scores g.hands g.piles none := by
      unfold Game.Inv at hInv
      rwa [hpe] at hInv
    have hccsn : isCCS none = false := rfl
    split at hok
    · -- playing, playCard
      rename_i cp card heq1
      split at hok
      · exact RespondOutcome.noConfusion hok
      · rename_i rem hsubl
        split at hok
        · exact RespondOutcome.noConfusion hok
        · rename_i hhasneg
          split at hok
          · rename_i hlt
            split at hok
            · rename_i gx hincr
              injection hok with hok2
              subst hok2
              obtain ⟨i, hset, _, _⟩ := incrementPlayer_spec _ _ hincr
              rw [hset]
              have hhas : rem.has card = true := by
                cases hh : rem.has card
                · rw [hh] at hhasneg
                  simp at hhasneg
                · rfl
              -- the incremented game only changes the state field
              show InvP g.scores g.hands (g.piles.set cp (g.piles.getD cp [] ++ [card]))
                g.pending
              rw [hpe]
              unfold handSubList at hsubl
              rcases hty : handTryFrom (g.piles.getD cp []) with _ | ph
              · rw [hty] at hsubl
                exact Option.noConfusion hsubl
              · rw [hty] at hsubl
                replace hsubl : handSub (g.hands.getD cp Hand.default) ph = some rem :=
                  hsubl
                unfold handSub at hsubl
                split at hsubl
                · rename_i hsup
                  injection hsubl with hrem
                  rcases Nat.lt_or_ge cp g.hands.length with hcp | hcp
                  · have hvalid := (hInv.2.2 cp hcp).1
                    obtain ⟨ph2, hty2, hsup2⟩ := tryFrom_append_of_sub
                      (g.hands.getD cp Hand.default) ph rem (g.piles.getD cp []) card
                      hty hsup hrem.symm hhas hvalid
                    refine ⟨hInv.1, by simpa using hInv.2.1, fun j hj => ?_⟩
                    refine ⟨(hInv.2.2 j hj).1, ?_⟩
                    by_cases hje : j = cp
                    · subst hje
                      have hjlen : j < g.piles.length := by
                        rw [hInv.2.1]
                        exact hj
                      rw [getD_set_self _ _ _ _ hjlen]
                      unfold supersetOk
                      rw [hty2]
                      simp only [List.getD_eq_getElem?_getD] at hsup2
                      simp [hsup2]
                    · rw [getD_set_ne _ _ _ _ _ hje]
                      exact (hInv.2.2 j hj).2
                  · have hcp2 : g.piles.length ≤ cp := by
                      rw [hInv.2.1]
                      exact hcp
                    rw [List.set_eq_of_length_le hcp2]
                    exact hInv
                · exact Option.noConfusion hsubl
            · exact RespondOutcome.noConfusion hok
          · exact RespondOutcome.noConfusion hok
    · -- playing, bid
      rename_i cp n
      split at hok
      · exact RespondOutcome.noConfusion hok
      · split at hok
        · injection hok with hok2
          subst hok2
          exact InvP_pending_any _ _ _ none _ hInv hccsn
        · injection hok with hok2
          subst hok2
          exact InvP_pending_any _ _ _ none _ hInv hccsn
    · -- bidding, bid
      rename_i cb hb hbr mb passed n
      split at hok
      · exact RespondOutcome.noConfusion hok
      · split at hok
        · exact RespondOutcome.noConfusion hok
        · split at hok
          · injection hok with hok2
            subst hok2
            exact InvP_pending_any _ _ _ none _ hInv hccsn
          · split at hok
            · rename_i gx hincr
              injection hok with hok2
              subst hok2
              obtain ⟨i, hset, _, _⟩ := incrementPlayer_spec _ _ hincr
              rw [hset]
              show InvP g.scores g.hands g.piles g.pending
              rw [hpe]
              exact hInv
            · exact RespondOutcome.noConfusion hok
    · -- bidding, pass
      rename_i cb hb hbr mb passed
      split at hok
      · exact RespondOutcome.noConfusion hok
      · split at hok
        · injection hok with hok2
          subst hok2
          exact InvP_pending_any _ _ _ none _ hInv hccsn
        · split at hok
          · rename_i gx hincr
            injection hok with hok2
            subst hok2
            obtain ⟨i, hset, _, _⟩ := incrementPlayer_spec _ _ hincr
            rw [hset]
            show InvP g.scores g.hands g.piles g.pending
            rw [hpe]
            exact hInv
          · exact RespondOutcome.noConfusion hok
    · -- challenging, flip
      split at hok
      · exact RespondOutcome.noConfusion hok
      · split at hok
        · exact RespondOutcome.noConfusion hok
        · split at hok
          · exact RespondOutcome.noConfusion hok
          · split at hok
            · -- skull flipped
              injection hok with hok2
              subst hok2
              exact InvP_discard _ _ _ none _ _ hInv _ _
            · -- flower flipped
              split at hok
              · split at hok
                · injection hok with hok2
                  subst hok2
                  exact InvP_score_pending _ _ _ none _ _ _ hInv hccsn
                · injection hok with hok2
                  subst hok2
                  show InvP g.scores g.hands g.piles g.pending
                  rw [hpe]
                  exact hInv
              · exact RespondOutcome.noConfusion hok
    · exact RespondOutcome.noConfusion hok

theorem whatNext_preserves_inv (g : Game) (hInv : g.Inv) :
    ∀ choice ev g2, g.whatNext choice = some (ev, g2) → g2.Inv := by
  intro choice ev g2 hok
  have hInvP : InvP g.scores g.hands g.piles g.pending := hInv
  cases hpd : g.pending with
  | none =>
    unfold Game.whatNext at hok
    rw [hpd] at hok
    injection hok with h1
    injection h1 with he hg
    rw [← hg]
    exact hInv
  | some ev0 =>
    unfold Game.whatNext at hok
    rw [hpd] at hok
    cases ev0 with
    | challengeStarted =>
      cases hst : g.state with
      | playing cp =>
        rw [hst] at hok
        exact Option.noConfusion hok
      | bidding cb hb hbr mb passed =>
        rw [hst] at hok
        exact Option.noConfusion hok
      | challenging ch target flipped =>
        rw [hst] at hok
        dsimp only at hok
        have hpre2 : isCCS g.pending = false := by rw [hpd]; rfl
        split at hok
        · injection hok with h1
          injection h1 with he hg
          rw [← hg]
          exact InvP_discard _ _ _ g.pending _ _ hInvP _ _
        · split at hok
          · injection hok with h1
            injection h1 with he hg
            rw [← hg]
            exact InvP_score_pending _ _ _ g.pending _ _ _ hInvP hpre2
          · injection hok with h1
            injection h1 with he hg
            rw [← hg]
            exact InvP_pending_any _ _ _ g.pending none hInvP hpre2
    | challengerChoseSkull ch sp =>
      dsimp only at hok
      split at hok
      · injection hok with h1
        injection h1 with he hg
        rw [← hg]
        exact InvP_reset _ _ _ g.pending none hInvP
      · split at hok
        · split at hok
          · rename_i gx hincr
            injection hok with h1
            injection h1 with he hg
            rw [← hg]
            obtain ⟨i, hset, _, _⟩ := incrementPlayer_spec _ _ hincr
            rw [hset]
            exact InvP_reset _ _ _ g.pending _ hInvP
          · exact Option.noConfusion hok
        · injection hok with h1
          injection h1 with he hg
          rw [← hg]
          exact InvP_reset _ _ _ g.pending _ hInvP
    | challengeWon p =>
      dsimp only at hok
      injection hok with h1
      injection h1 with he hg
      rw [← hg]
      exact InvP_reset _ _ _ g.pending none hInvP
    | input pl ik =>
      exact Option.noConfusion hok
    | bidStarted =>
      dsimp only at hok
      injection hok with h1
      injection h1 with he hg
      rw [← hg]
      exact InvP_pending_any _ _ _ g.pending none hInvP (by rw [hpd]; rfl)
    | playerOut p =>
      dsimp only at hok
      injection hok with h1
      injection h1 with he hg
      rw [← hg]
      exact InvP_pending_any _ _ _ g.pending none hInvP (by rw [hpd]; rfl)
    | challengeWonGameWon p =>
      dsimp only at hok
      injection hok with h1
      injection h1 with he hg
      rw [← hg]
      exact InvP_pending_any _ _ _ g.pending none hInvP (by rw [hpd]; rfl)

/-- C8 (amended): for every game state satisfying the card-conservation
invariant — each pile parses as a legal hand and, outside the transient
pending `ChallengerChoseSkull` window, is a sub-multiset of its owner's
stored hand — the safe cards still in hand (`hand − pile`) plus the safe
cards in the pile total at most 3 and the penalty cards total at most 1 for
every player; and every operation (`what_next` and every successful
`respond`) preserves the invariant. -/
theorem card_conservation_invariant (g : Game) (hInv : g.Inv) :
    (∀ i, i < g.hands.length → isCCS g.pending = false →
      ∃ rem ph, handTryFrom (g.piles.getD i []) = some ph ∧
        handSub (g.hands.getD i Hand.default) ph = some rem ∧
        rem.flowers + ph.flowers ≤ 3 ∧
        ((if rem.skull then 1 else 0) + (if ph.skull then 1 else 0) ≤ 1)) ∧
    (∀ r choice g2, g.respond r choice = RespondOutcome.ok g2 → g2.Inv) ∧
    (∀ choice ev g2, g.whatNext choice = some (ev, g2) → g2.Inv) := by
  refine ⟨?_, respond_preserves_inv g hInv, whatNext_preserves_inv g hInv⟩
  intro i hi hccs
  have hInvP : InvP g.scores g.hands g.piles g.pending := hInv
  have hvalid := (hInvP.2.2 i hi).1
  have hOk := (hInvP.2.2 i hi).2
  rw [hccs] at hOk
  unfold supersetOk at hOk
  rcases hty : handTryFrom (g.piles.getD i []) with _ | ph
  · rw [hty] at hOk
    exact Bool.noConfusion hOk
  · rw [hty] at hOk
    have hsup : (g.hands.getD i Hand.default).is_superset_of ph = true := by
      simpa using hOk
    have hsup2 := (superset_iff _ _).mp hsup
    have hv3 : (g.hands.getD i Hand.default).flowers ≤ 3 := by
      unfold Hand.valid at hvalid
      simp only [decide_eq_true_eq] at hvalid
      omega
    refine ⟨{ skull := xor (g.hands.getD i Hand.default).skull ph.skull,
              flowers := (g.hands.getD i Hand.default).flowers - ph.flowers },
            ph, rfl, ?_, ?_, ?_⟩
    · unfold handSub
      rw [if_pos hsup]
    · show (g.hands.getD i Hand.default).flowers - ph.flowers + ph.flowers ≤ 3
      omega
    · show (if xor (g.hands.getD i Hand.default).skull ph.skull then 1 else 0) +
        (if ph.skull then 1 else 0) ≤ 1
      cases hph : ph.skull
      · cases hh : (g.hands.getD i Hand.default).skull <;> simp
      · have := hsup2.1 hph
        rw [this]
        simp

instance decidableInvP (sc : List Nat) (hd : List Hand) (pl : List (List Card))
    (pe : Option Event) : Decidable (InvP sc hd pl pe) := by
  unfold InvP
  infer_instance

instance decidableInv (g : Game) : Decidable g.Inv := by
  unfold Game.Inv
  infer_instance

/-- Witness for C8 (amended): the invariant holds for the fresh 3-player game
and, via the preservation theorem, still holds after player 0 plays a
flower. -/
theorem card_conservation_invariant_witness :
    (Game.new 3).Inv ∧ gFreshAfter.Inv := by
  refine ⟨by decide, ?_⟩
  exact (card_conservation_invariant (Game.new 3) (by decide)).2.1
    (Response.playCard Card.flower) 0 gFreshAfter (by decide)
